import Mathlib

/-!
Verification of the resilient structured-extraction engine in
`src/matcher.py` (class `JobMatcher`).

Texts are modelled as `List Char`.  Python's float computation
`int(len(text) * (6000 / total_tokens))` is modelled by the exact rational
value floored, i.e. Nat division `len * 6000 / total_tokens`; the two agree
except on knife-edge rounding cases that IEEE doubles cannot distinguish at
these magnitudes.  Python's case operations (`lower`, `upper`, `title`) and
whitespace set are modelled over ASCII, which covers every string the code
manipulates.
-/

/-- Python whitespace (ASCII part of the set stripped by `str.strip()` and
matched by the regex class `\s`). -/
def isPySpace (c : Char) : Bool :=
  c = ' ' || c = '\t' || c = '\n' || c = '\r' || c = '\x0b' || c = '\x0c'

/-- Python `str.strip()`: drop leading and trailing whitespace. -/
def pyStrip (s : List Char) : List Char :=
  ((s.dropWhile isPySpace).reverse.dropWhile isPySpace).reverse

/-- Python `str.startswith(pat)` restricted to what the code needs: `pat`
is a literal prefix of `s` (case-sensitive). -/
def leadMatch : List Char → List Char → Bool
  | [], _ => true
  | _ :: _, [] => false
  | a :: ps, b :: ts => a = b && leadMatch ps ts

/-- Python `str.endswith(pat)`. -/
def pyEndsWith (pat s : List Char) : Bool :=
  leadMatch pat.reverse s.reverse

/-- Python `text.lower()` (ASCII). -/
def pyLower (s : List Char) : List Char := s.map Char.toLower

/-- Python `text.upper()` (ASCII). -/
def pyUpper (s : List Char) : List Char := s.map Char.toUpper

/-- Helper for `pyTitle`: the Bool records whether the previous character
was alphabetic (part of the current word). -/
def pyTitleAux : Bool → List Char → List Char
  | _, [] => []
  | prevAlpha, c :: rest =>
    if c.isAlpha then
      (if prevAlpha then c.toLower else c.toUpper) :: pyTitleAux true rest
    else c :: pyTitleAux false rest

/-- Python `str.title()` (ASCII): first letter of each word uppercased,
the rest lowercased. -/
def pyTitle (s : List Char) : List Char := pyTitleAux false s

/-- Python `pat in s`: substring containment. -/
def containsSub (pat : List Char) : List Char → Bool
  | [] => leadMatch pat []
  | c :: rest => leadMatch pat (c :: rest) || containsSub pat rest

/-- `matcher.py` line 32: token ceiling for the combined prompt inputs. -/
def max_total_tokens : Nat := 6000

/-- `JobMatcher._estimate_tokens` (line 23): `len(text) // 4`. -/
def estimate_tokens (text : List Char) : Nat := text.length / 4

/-- The visible placeholder inserted by `_truncate_text` (line 21). -/
def truncMarkerText : List Char := "\n[...content truncated...]\n".data

/-- Python `text[-n:]`.  For `n = 0` Python returns the whole string
(`text[-0:] == text`), otherwise the last `n` characters. -/
def pyTail (text : List Char) (n : Nat) : List Char :=
  if n = 0 then text else text.drop (text.length - n)

/-- `JobMatcher._truncate_text` (lines 12-21): keep the first and last
`max_chars // 2` characters around the placeholder marker. -/
def truncate_text (text : List Char) (maxChars : Nat) : List Char :=
  if text.length ≤ maxChars then text
  else text.take (maxChars / 2) ++ truncMarkerText ++ pyTail text (maxChars / 2)

/-- Lines 35-36: combined token estimate of the two inputs. -/
def combined_tokens (resume job : List Char) : Nat :=
  estimate_tokens resume + estimate_tokens job

/-- Lines 42-45: `int(len(text) * (max_total_tokens / combined))`,
modelled as exact rational arithmetic floored. -/
def max_chars_for (text : List Char) (combined : Nat) : Nat :=
  text.length * max_total_tokens / combined

/-- The input-budgeting step of `evaluate_match` (lines 32-50): if the
combined estimate exceeds the ceiling, truncate both texts with the same
proportional factor, else return them unchanged. -/
def budget (resume job : List Char) : List Char × List Char :=
  if combined_tokens resume job > max_total_tokens then
    (truncate_text resume (max_chars_for resume (combined_tokens resume job)),
     truncate_text job (max_chars_for job (combined_tokens resume job)))
  else (resume, job)

/-- Line 60-63: the skills-section header markers. -/
def skills_section_markers : List (List Char) :=
  [ "SKILLS".data, "TECHNICAL SKILLS".data, "TECHNOLOGIES".data,
    "CORE COMPETENCIES".data, "EXPERTISE".data, "PROFICIENCIES".data,
    "TECHNICAL EXPERTISE".data, "TOOLS".data ]

/-- The sentinel tag (with its trailing space) placed before each marker
occurrence, from the f-strings on lines 67-69. -/
def sentinelTag : List Char := ">>>SKILLS_SECTION<<< ".data

/-- Recursion core of `pyReplace`.  The fuel argument only forces
structural recursion: each step consumes one unit while the text shrinks
by at least one character, so fuel equal to the text length is always
sufficient and the fuel-exhausted branch is unreachable from `pyReplace`. -/
def pyReplaceAux (pat rep : List Char) : Nat → List Char → List Char
  | _, [] => []
  | 0, s => s
  | fuel + 1, c :: rest =>
    if !pat.isEmpty && leadMatch pat (c :: rest) then
      rep ++ pyReplaceAux pat rep fuel ((c :: rest).drop pat.length)
    else
      c :: pyReplaceAux pat rep fuel rest

/-- Python `s.replace(pat, rep)`: replace non-overlapping occurrences left
to right; the replacement text is not rescanned.  Every pattern the code
passes is non-empty; for an empty pattern this model returns `s` unchanged
(Python would instead interleave `rep` everywhere). -/
def pyReplace (s pat rep : List Char) : List Char :=
  pyReplaceAux pat rep s.length s

/-- One iteration of the loop on lines 66-69: replace the as-given, title
and upper variants of `marker + ":"`, each prefixed with the sentinel tag. -/
def tagMarker (text marker : List Char) : List Char :=
  let t1 := pyReplace text (marker ++ [':']) (sentinelTag ++ marker ++ [':'])
  let t2 := pyReplace t1 (pyTitle marker ++ [':'])
      (sentinelTag ++ pyTitle marker ++ [':'])
  pyReplace t2 (pyUpper marker ++ [':']) (sentinelTag ++ pyUpper marker ++ [':'])

/-- The skills-section tagging pass on lines 65-69. -/
def highlight (text : List Char) : List Char :=
  skills_section_markers.foldl tagMarker text

/-- Index of the first occurrence of `c` (Python `str.find`, `none` for
`-1`). -/
def findFirst (c : Char) : List Char → Option Nat
  | [] => none
  | a :: rest => if a = c then some 0 else (findFirst c rest).map (· + 1)

/-- Index of the last occurrence of `c` (Python `str.rfind`, `none` for
`-1`). -/
def findLast (c : Char) : List Char → Option Nat
  | [] => none
  | a :: rest =>
    match findLast c rest with
    | some k => some (k + 1)
    | none => if a = c then some 0 else none

/-- Lines 310-316 / 121-127: strip a leading "```json" (exactly) or "```"
fence and a trailing "```" fence. -/
def stripFences (s : List Char) : List Char :=
  let s1 :=
    if leadMatch "```json".data s then s.drop 7
    else if leadMatch "```".data s then s.drop 3
    else s
  if pyEndsWith "```".data s1 then s1.take (s1.length - 3) else s1

/-- Lines 319-327: slice from the first `{` to the last `}` when the
closing index is after the opening one, else leave the text unchanged. -/
def braceSlice (s : List Char) : List Char :=
  match findFirst '\x7b' s, findLast '\x7d' s with
  | some i, some j => if i < j then (s.take (j + 1)).drop i else s
  | _, _ => s

/-- The response normalization applied to both generator responses
(lines 118-140 and 307-329): trim, strip fences, brace-slice, trim. -/
def normalizeContent (raw : List Char) : List Char :=
  pyStrip (braceSlice (stripFences (pyStrip raw)))

/-- The widest balanced-looking `{...}` span selected by the greedy regex
`\{[\s\S]*\}` under `re.search` (line 150): from the first `{` to the last
`}`, provided the latter comes after the former. -/
def spanWidest (s : List Char) : Option (List Char) :=
  match findFirst '\x7b' s, findLast '\x7d' s with
  | some i, some j => if i < j then some ((s.take (j + 1)).drop i) else none
  | _, _ => none

/-- Case-insensitive character comparison, for the `re.IGNORECASE` flag on
line 345 (ASCII fold). -/
def caseEq (a b : Char) : Bool := a.toLower = b.toLower

/-- Case-insensitive literal prefix match (`re.IGNORECASE`). -/
def leadMatchCI : List Char → List Char → Bool
  | [], _ => true
  | _ :: _, [] => false
  | a :: ps, b :: ts => caseEq a b && leadMatchCI ps ts

/-- The quoted key literal `"is_match"` from the regex on line 344. -/
def litIsMatch : List Char := "\"is_match\"".data

/-- After the key literal the regex requires `\s*:\s*(true|false)`
(case-insensitive). -/
def boolAfter (s : List Char) : Bool :=
  match s.dropWhile isPySpace with
  | ':' :: rest =>
    let s2 := rest.dropWhile isPySpace
    leadMatchCI "true".data s2 || leadMatchCI "false".data s2
  | _ => false

/-- Whether the window of non-brace characters contains the key literal
followed by a colon and a boolean, i.e. whether
`[^\{\}]*"is_match"\s*:\s*(true|false)[^\{\}]*` can match the window. -/
def hasIsMatchKey : List Char → Bool
  | [] => false
  | c :: rest =>
    (leadMatchCI litIsMatch (c :: rest) &&
      boolAfter ((c :: rest).drop litIsMatch.length))
    || hasIsMatchKey rest

def isBrace (c : Char) : Bool := c = '\x7b' || c = '\x7d'

/-- Attempt of the verdict regex at the current position.  Every character
the pattern `\{[^\{\}]*"is_match"\s*:\s*(true|false)[^\{\}]*\}` matches
between the braces is a non-brace, so a match starting here runs to the
first following brace, which must be `}`. -/
def verdictMatchHere (s : List Char) : Option (List Char) :=
  match s with
  | '\x7b' :: rest =>
    let w := rest.takeWhile (fun c => !(isBrace c))
    match rest.drop w.length with
    | '\x7d' :: _ => if hasIsMatchKey w then some ('\x7b' :: (w ++ ['\x7d'])) else none
    | _ => none
  | _ => none

/-- The span selected by `re.search(json_pattern, content, re.IGNORECASE)`
on lines 344-348: the leftmost match of
`\{[^\{\}]*"is_match"\s*:\s*(true|false)[^\{\}]*\}`. -/
def verdictRegexSpan : List Char → Option (List Char)
  | [] => none
  | c :: rest =>
    match verdictMatchHere (c :: rest) with
    | some m => some m
    | none => verdictRegexSpan rest

/-- The curated technology vocabulary (lines 169-180, duplicated verbatim
on lines 206-217). -/
def tech_keywords : List (List Char) :=
  [ "Python".data, "JavaScript".data, "TypeScript".data, "Java".data,
    "C#".data, "C++".data, "Go".data, "Ruby".data, "PHP".data, "Swift".data,
    "React".data, "Angular".data, "Vue".data, "Node.js".data, "Express".data,
    "Django".data, "Flask".data, "Spring".data, "ASP.NET".data,
    "HTML".data, "CSS".data, "SASS".data, "LESS".data, "Bootstrap".data,
    "Tailwind".data, "Material UI".data,
    "AWS".data, "Azure".data, "GCP".data, "Firebase".data, "Heroku".data,
    "Netlify".data, "Vercel".data,
    "Docker".data, "Kubernetes".data, "CI/CD".data, "Jenkins".data,
    "GitHub Actions".data, "GitLab CI".data,
    "SQL".data, "MySQL".data, "PostgreSQL".data, "MongoDB".data,
    "DynamoDB".data, "Redis".data, "Elasticsearch".data,
    "REST API".data, "GraphQL".data, "WebSockets".data, "gRPC".data,
    "Git".data, "GitHub".data, "GitLab".data, "Bitbucket".data,
    "TensorFlow".data, "PyTorch".data, "Scikit-learn".data, "Pandas".data,
    "NumPy".data,
    "Agile".data, "Scrum".data, "Kanban".data, "Jira".data, "Confluence".data ]

/-- The keyword scan on lines 182-185 / 219-222: collect, in vocabulary
order, every term whose lowercase form occurs in the lowercased source. -/
def extractKeywords (src : List Char) : List (List Char) :=
  tech_keywords.filter (fun k => containsSub (pyLower k) (pyLower src))

/-- The sentinel entry used on line 225 when no keyword is found. -/
def skillsSentinel : List Char := "Unable to parse skills".data

/-- The sentinel experience entry of the fallback record (line 230). -/
def expSentinel : List Char := "Unable to parse experience".data

/-- The explicit-skills field produced by fallback synthesis
(lines 219-228): discovered keywords, or the non-empty sentinel. -/
def fallbackExplicitSkills (src : List Char) : List (List Char) :=
  if extractKeywords src = [] then [skillsSentinel] else extractKeywords src

/-- The candidate-profile record (the JSON object of lines 93-101).  A key
that is absent from the parsed dict behaves in the repair code exactly like
an empty list, so list fields model `dict.get(..., [])`. -/
structure Profile where
  explicitSkills : List (List Char)
  inferredSkills : List (List Char)
  experience : List (List Char)
  education : List (List Char)
  yearsOfExperience : List Char
  projectTypes : List (List Char)
deriving DecidableEq

/-- The field-presence check on lines 164-194: when `ExplicitSkills` is
missing or empty, merge in the keyword scan of the resume if it found
anything; an empty `Experience` only triggers a printed warning (line 194)
and is left as is. -/
def repairProfile (p : Profile) (resume : List Char) : Profile :=
  if p.explicitSkills = [] then
    let ks := extractKeywords resume
    if ks = [] then p else { p with explicitSkills := ks }
  else p

/-- The match-verdict record (lines 263-269).  The error verdict of
lines 377-380 carries only the flag and the reason, so the other fields
are optional. -/
structure Verdict where
  is_match : Bool
  match_percentage : Option Nat
  matching_skills : Option (List (List Char))
  missing_skills : Option (List (List Char))
  reason : List Char
deriving DecidableEq

/-- The positive-sentiment test on line 359: `"match" in content.lower()
and ("good fit" in content.lower() or "strong match" in content.lower())`. -/
def posKeywords (content : List Char) : Bool :=
  containsSub "match".data (pyLower content) &&
    (containsSub "good fit".data (pyLower content) ||
     containsSub "strong match".data (pyLower content))

/-- The keyword-based fallback verdict of lines 356-374. -/
def fallbackVerdict (content : List Char) : Verdict :=
  let im := posKeywords content
  { is_match := im
    match_percentage := some (if im then 75 else 30)
    matching_skills := some []
    missing_skills := some []
    reason := "Could not parse structured response. ".data ++
      (if im then "Based on keywords, this appears to be a match.".data
       else "Based on keywords, this does not appear to be a match.".data) }

/-- The verdict returned by the `except` handler on lines 375-380. -/
def errorVerdict (e : List Char) : Verdict :=
  { is_match := false
    match_percentage := none
    matching_skills := none
    missing_skills := none
    reason := "Error evaluating match: ".data ++ e }

/-- The outer `try`/`except` of lines 292-380 around the generator call:
the call either raises (`Except.error` carrying `str(e)`) or returns text
that the rest of the block (lines 302-374, abstracted as `processOk`)
turns into a verdict; an exception becomes the error verdict of
lines 377-380 and is never re-raised. -/
def handleMatchCall (processOk : List Char → Verdict) :
    Except (List Char) (List Char) → Verdict
  | .error e => errorVerdict e
  | .ok content => processOk content

/-- Modelled from the spec (claim C5 wording, spec section 4.3 step 1):
strip a leading fence marker, "a single case-insensitive tag optionally
followed by a language hint", as a no-op when the text does not begin with
the tag. -/
def stripLeadingFenceSpec (s : List Char) : List Char :=
  if leadMatch "```".data s then (s.drop 3).dropWhile Char.isAlpha else s

/-- Modelled from the spec (claim C5 wording): strip a trailing fence
marker, as a no-op when absent. -/
def stripTrailingFenceSpec (s : List Char) : List Char :=
  if pyEndsWith "```".data s then s.take (s.length - 3) else s

/-- Modelled from the spec (claim C5 wording, spec section 4.3): fence
stripping first, then whitespace trimming, then the brace slice, returning
the trimmed text unchanged when no `{`...`}` pair exists. -/
def normalizeSpecC5 (raw : List Char) : List Char :=
  braceSlice (pyStrip (stripTrailingFenceSpec (stripLeadingFenceSpec raw)))

/-! Helper lemmas about the brace-span selector. -/

theorem findFirst_spec {c : Char} : ∀ {s : List Char} {i : Nat},
    findFirst c s = some i → s[i]? = some c := by
  intro s
  induction s with
  | nil => intro i h; simp [findFirst] at h
  | cons a rest ih =>
    intro i h
    by_cases ha : a = c
    · simp [findFirst, ha] at h
      subst h; simp [ha]
    · simp [findFirst, ha] at h
      obtain ⟨k, hk, rfl⟩ := h
      simpa using ih hk

theorem findLast_spec {c : Char} : ∀ {s : List Char} {j : Nat},
    findLast c s = some j → s[j]? = some c := by
  intro s
  induction s with
  | nil => intro j h; simp [findLast] at h
  | cons a rest ih =>
    intro j h
    cases hr : findLast c rest with
    | some k =>
      simp [findLast, hr] at h
      subst h; simpa using ih hr
    | none =>
      by_cases ha : a = c
      · simp [findLast, hr, ha] at h
        subst h; simp [ha]
      · simp [findLast, hr, ha] at h

theorem findFirst_lt {c : Char} {s : List Char} {i : Nat}
    (h : findFirst c s = some i) : i < s.length := by
  have := findFirst_spec h
  by_contra hlt
  rw [List.getElem?_eq_none (by omega)] at this
  exact Option.noConfusion this

theorem findLast_lt {c : Char} {s : List Char} {j : Nat}
    (h : findLast c s = some j) : j < s.length := by
  have := findLast_spec h
  by_contra hlt
  rw [List.getElem?_eq_none (by omega)] at this
  exact Option.noConfusion this

theorem spanWidest_cons {c : Char} (s : List Char) (h1 : c ≠ '\x7b')
    (h2 : c ≠ '\x7d') : spanWidest (c :: s) = spanWidest s := by
  cases hf : findFirst '\x7b' s with
  | none =>
    cases hl : findLast '\x7d' s with
    | none => simp [spanWidest, findFirst, findLast, h1, h2, hf, hl]
    | some j => simp [spanWidest, findFirst, findLast, h1, h2, hf, hl]
  | some i =>
    cases hl : findLast '\x7d' s with
    | none => simp [spanWidest, findFirst, findLast, h1, h2, hf, hl]
    | some j =>
      simp only [spanWidest, findFirst, findLast, h1, h2, hf, hl,
        if_neg h1, Option.map_some']
      by_cases hij : i < j
      · simp [hij, Nat.add_lt_add_iff_right, List.take_succ_cons,
          List.drop_succ_cons]
      · simp [hij, Nat.add_lt_add_iff_right]

theorem findFirst_concat {c c' : Char} (hc : c' ≠ c) :
    ∀ s : List Char, findFirst c (s ++ [c']) = findFirst c s := by
  intro s
  induction s with
  | nil => simp [findFirst, hc]
  | cons a rest ih => by_cases ha : a = c <;> simp [findFirst, ha, ih]

theorem findLast_concat {c c' : Char} (hc : c' ≠ c) :
    ∀ s : List Char, findLast c (s ++ [c']) = findLast c s := by
  intro s
  induction s with
  | nil => simp [findLast, hc]
  | cons a rest ih =>
    show findLast c (a :: (rest ++ [c'])) = _
    simp only [findLast, ih]

theorem spanWidest_concat {c : Char} (s : List Char) (h1 : c ≠ '\x7b')
    (h2 : c ≠ '\x7d') : spanWidest (s ++ [c]) = spanWidest s := by
  cases hf : findFirst '\x7b' s with
  | none =>
    cases hl : findLast '\x7d' s with
    | none => simp [spanWidest, findFirst_concat h1, findLast_concat h2, hf, hl]
    | some j => simp [spanWidest, findFirst_concat h1, findLast_concat h2, hf, hl]
  | some i =>
    cases hl : findLast '\x7d' s with
    | none => simp [spanWidest, findFirst_concat h1, findLast_concat h2, hf, hl]
    | some j =>
      have hjlt : j < s.length := findLast_lt hl
      simp only [spanWidest, findFirst_concat h1, findLast_concat h2, hf, hl]
      by_cases hij : i < j
      · rw [if_pos hij, if_pos hij,
          List.take_append_of_le_length (by omega)]
      · rw [if_neg hij, if_neg hij]

theorem spanWidest_append_left {pre : List Char}
    (h : ∀ c ∈ pre, c ≠ '\x7b' ∧ c ≠ '\x7d') (s : List Char) :
    spanWidest (pre ++ s) = spanWidest s := by
  induction pre with
  | nil => rfl
  | cons a rest ih =>
    have ha := h a (by simp)
    have hrest : ∀ c ∈ rest, c ≠ '\x7b' ∧ c ≠ '\x7d' := fun c hc =>
      h c (by simp [hc])
    rw [List.cons_append, spanWidest_cons _ ha.1 ha.2, ih hrest]

theorem spanWidest_append_right {post : List Char}
    (h : ∀ c ∈ post, c ≠ '\x7b' ∧ c ≠ '\x7d') :
    ∀ s : List Char, spanWidest (s ++ post) = spanWidest s := by
  induction post with
  | nil => simp
  | cons a rest ih =>
    intro s
    have ha := h a (by simp)
    have hrest : ∀ c ∈ rest, c ≠ '\x7b' ∧ c ≠ '\x7d' := fun c hc =>
      h c (by simp [hc])
    have : s ++ a :: rest = (s ++ [a]) ++ rest := by simp
    rw [this, ih hrest (s ++ [a]), spanWidest_concat _ ha.1 ha.2]

theorem spanWidest_dropWhile {p : Char → Bool} (hb1 : p '\x7b' = false)
    (hb2 : p '\x7d' = false) (s : List Char) :
    spanWidest (s.dropWhile p) = spanWidest s := by
  induction s with
  | nil => rfl
  | cons a rest ih =>
    by_cases ha : p a
    · have ha1 : a ≠ '\x7b' := fun h => by subst h; rw [hb1] at ha; cases ha
      have ha2 : a ≠ '\x7d' := fun h => by subst h; rw [hb2] at ha; cases ha
      rw [List.dropWhile_cons_of_pos ha, ih, spanWidest_cons _ ha1 ha2]
    · rw [List.dropWhile_cons_of_neg (by simpa using ha)]

theorem spanWidest_dropTrailing {p : Char → Bool} (hb1 : p '\x7b' = false)
    (hb2 : p '\x7d' = false) (s : List Char) :
    spanWidest (s.reverse.dropWhile p).reverse = spanWidest s := by
  have hsplit : s = (s.reverse.dropWhile p).reverse ++
      (s.reverse.takeWhile p).reverse := by
    rw [← List.reverse_append, List.takeWhile_append_dropWhile,
      List.reverse_reverse]
  have hpost : ∀ c ∈ (s.reverse.takeWhile p).reverse,
      c ≠ '\x7b' ∧ c ≠ '\x7d' := by
    intro c hc
    rw [List.mem_reverse] at hc
    have hpc := List.mem_takeWhile_imp hc
    constructor
    · intro h; subst h; rw [hb1] at hpc; cases hpc
    · intro h; subst h; rw [hb2] at hpc; cases hpc
  conv_rhs => rw [hsplit]
  rw [spanWidest_append_right hpost]

theorem spanWidest_pyStrip (s : List Char) :
    spanWidest (pyStrip s) = spanWidest s := by
  have hb1 : isPySpace '\x7b' = false := by decide
  have hb2 : isPySpace '\x7d' = false := by decide
  unfold pyStrip
  rw [spanWidest_dropTrailing hb1 hb2, spanWidest_dropWhile hb1 hb2]

theorem leadMatch_append : ∀ {pat s : List Char},
    leadMatch pat s = true → s = pat ++ s.drop pat.length := by
  intro pat
  induction pat with
  | nil => intro s _; simp
  | cons a ps ih =>
    intro s h
    cases s with
    | nil => simp [leadMatch] at h
    | cons b ts =>
      simp only [leadMatch, Bool.and_eq_true, decide_eq_true_eq] at h
      obtain ⟨rfl, hrest⟩ := h
      simpa using ih hrest

theorem spanWidest_dropPrefix {pat s : List Char}
    (hb : ∀ c ∈ pat, c ≠ '\x7b' ∧ c ≠ '\x7d')
    (h : leadMatch pat s = true) :
    spanWidest (s.drop pat.length) = spanWidest s := by
  conv_rhs => rw [leadMatch_append h]
  rw [spanWidest_append_left hb]

theorem spanWidest_takeSuffix {s : List Char}
    (h : pyEndsWith "```".data s = true) :
    spanWidest (s.take (s.length - 3)) = spanWidest s := by
  unfold pyEndsWith at h
  have hrev := leadMatch_append h
  have e1 : ("```".data.reverse) = "```".data := by decide
  have e2 : ("```".data).length = 3 := by decide
  rw [e1, e2] at hrev
  have hs : s = (s.reverse.drop 3).reverse ++ "```".data := by
    conv_lhs => rw [← List.reverse_reverse s, hrev]
    rw [List.reverse_append, e1]
  have htake : s.take (s.length - 3) = (s.reverse.drop 3).reverse := by
    conv_lhs => rw [hs]
    have hl : ((s.reverse.drop 3).reverse ++ "```".data).length - 3 =
        (s.reverse.drop 3).reverse.length := by simp
    rw [hl, List.take_left']
    rfl
  rw [htake]
  conv_rhs => rw [hs]
  rw [spanWidest_append_right (by decide)]

theorem spanWidest_stripFences (s : List Char) :
    spanWidest (stripFences s) = spanWidest s := by
  have hstage2 : ∀ t : List Char, spanWidest
      (if pyEndsWith "```".data t then t.take (t.length - 3) else t) =
      spanWidest t := by
    intro t
    by_cases hE : pyEndsWith "```".data t
    · rw [if_pos hE, spanWidest_takeSuffix hE]
    · rw [if_neg hE]
  simp only [stripFences]
  rw [hstage2]
  by_cases h7 : leadMatch "```json".data s
  · rw [if_pos h7]
    have h := spanWidest_dropPrefix (by decide) h7
    simpa using h
  · rw [if_neg h7]
    by_cases h3 : leadMatch "```".data s
    · rw [if_pos h3]
      have h := spanWidest_dropPrefix (by decide) h3
      simpa using h
    · rw [if_neg h3]

theorem spanWidest_some_facts {s t : List Char} (h : spanWidest s = some t) :
    braceSlice s = t ∧ t.head? = some '\x7b' ∧ t.getLast? = some '\x7d' ∧
      2 ≤ t.length := by
  cases hf : findFirst '\x7b' s with
  | none => cases hl : findLast '\x7d' s <;>
      simp only [spanWidest, hf, hl] at h <;> exact Option.noConfusion h
  | some i =>
    cases hl : findLast '\x7d' s with
    | none =>
      simp only [spanWidest, hf, hl] at h
      exact Option.noConfusion h
    | some j =>
      simp only [spanWidest, hf, hl] at h
      by_cases hij : i < j
      · rw [if_pos hij] at h
        have hjlt : j < s.length := findLast_lt hl
        injection h with ht
        have hlen : t.length = j + 1 - i := by
          rw [← ht]
          simp only [List.length_drop, List.length_take]
          omega
        refine ⟨?_, ?_, ?_, by omega⟩
        · simp only [braceSlice, hf, hl]
          rw [if_pos hij]
          exact ht
        · rw [← ht, List.head?_drop, List.getElem?_take_of_lt (by omega),
            findFirst_spec hf]
        · rw [List.getLast?_eq_getElem?, hlen, ← ht, List.getElem?_drop,
            List.getElem?_take_of_lt (by omega)]
          have hidx : i + (j + 1 - i - 1) = j := by omega
          rw [hidx, findLast_spec hl]
      · rw [if_neg hij] at h; exact Option.noConfusion h

theorem braceSlice_of_none {s : List Char} (h : spanWidest s = none) :
    braceSlice s = s := by
  cases hf : findFirst '\x7b' s with
  | none => cases hl : findLast '\x7d' s <;> simp only [braceSlice, hf, hl]
  | some i =>
    cases hl : findLast '\x7d' s with
    | none => simp only [braceSlice, hf, hl]
    | some j =>
      simp only [spanWidest, hf, hl] at h
      simp only [braceSlice, hf, hl]
      by_cases hij : i < j
      · rw [if_pos hij] at h; exact Option.noConfusion h
      · rw [if_neg hij]

theorem findLast_of_getLast {c : Char} : ∀ {t : List Char},
    t.getLast? = some c → findLast c t = some (t.length - 1) := by
  intro t
  induction t with
  | nil => intro h; simp at h
  | cons a rest ih =>
    intro h
    cases rest with
    | nil =>
      simp only [List.getLast?_singleton, Option.some.injEq] at h
      simp [findLast, h]
    | cons b rest' =>
      have hg : (b :: rest').getLast? = some c := by
        rw [← h, List.getLast?_cons_cons]
      have h' := ih hg
      have hm : findLast c (a :: b :: rest') =
          some ((b :: rest').length - 1 + 1) := by
        show (match findLast c (b :: rest') with
          | some k => some (k + 1)
          | none => if a = c then some 0 else none) =
          some ((b :: rest').length - 1 + 1)
        rw [h']
      rw [hm]
      exact congrArg some (by simp only [List.length_cons]; omega)

theorem spanWidest_of_head_last {t : List Char} (h1 : t.head? = some '\x7b')
    (h2 : t.getLast? = some '\x7d') (hlen : 2 ≤ t.length) :
    spanWidest t = some t := by
  cases t with
  | nil => simp at h1
  | cons a t' =>
    simp only [List.head?_cons, Option.some.injEq] at h1
    have hfirst : findFirst '\x7b' (a :: t') = some 0 := by
      simp [findFirst, h1]
    have hlast := findLast_of_getLast h2
    simp only [spanWidest, hfirst, hlast]
    have hpos : 0 < (a :: t').length - 1 := by
      simp only [List.length_cons] at hlen ⊢
      omega
    rw [if_pos hpos]
    have : (a :: t').length - 1 + 1 = (a :: t').length := by
      simp only [List.length_cons]; omega
    rw [this, List.take_length, List.drop_zero]

theorem spanWidest_braceSlice (s : List Char) :
    spanWidest (braceSlice s) = spanWidest s := by
  cases h : spanWidest s with
  | none => rw [braceSlice_of_none h, h]
  | some t =>
    obtain ⟨hb, hh, hl, hlen⟩ := spanWidest_some_facts h
    rw [hb, spanWidest_of_head_last hh hl hlen]

theorem pyStrip_of_head_last {t : List Char} (h1 : t.head? = some '\x7b')
    (h2 : t.getLast? = some '\x7d') : pyStrip t = t := by
  unfold pyStrip
  have hd : t.dropWhile isPySpace = t := by
    cases t with
    | nil => rfl
    | cons a t' =>
      simp only [List.head?_cons, Option.some.injEq] at h1
      rw [List.dropWhile_cons_of_neg]
      rw [h1]; decide
  rw [hd]
  have hrev : t.reverse.head? = some '\x7d' := by
    rw [List.head?_reverse, h2]
  have hdrev : t.reverse.dropWhile isPySpace = t.reverse := by
    cases hr : t.reverse with
    | nil => rfl
    | cons b u =>
      rw [hr] at hrev
      simp only [List.head?_cons, Option.some.injEq] at hrev
      rw [List.dropWhile_cons_of_neg]
      rw [hrev]; decide
  rw [hdrev, List.reverse_reverse]

theorem spanWidest_normalize (raw : List Char) :
    spanWidest (normalizeContent raw) = spanWidest raw := by
  unfold normalizeContent
  rw [spanWidest_pyStrip, spanWidest_braceSlice, spanWidest_stripFences,
    spanWidest_pyStrip]

/-! Helper lemmas for the input budgeter. -/

theorem div_add_div_le (a b c : Nat) (hc : 0 < c) :
    a / c + b / c ≤ (a + b) / c := by
  rw [Nat.le_div_iff_mul_le hc]
  calc (a / c + b / c) * c = a / c * c + b / c * c := by rw [Nat.add_mul]
    _ ≤ a + b := Nat.add_le_add (Nat.div_mul_le_self a c)
        (Nat.div_mul_le_self b c)

theorem truncMarkerText_length : truncMarkerText.length = 27 := by decide

theorem pyTail_length {t : List Char} {n : Nat} (h1 : n ≠ 0)
    (h2 : n ≤ t.length) : (pyTail t n).length = n := by
  unfold pyTail
  rw [if_neg h1, List.length_drop]
  omega

theorem truncate_length {t : List Char} {m : Nat} (hlt : m < t.length)
    (h2 : 1 ≤ m / 2) : (truncate_text t m).length = 2 * (m / 2) + 27 := by
  have hm2 : m / 2 ≤ m := Nat.div_le_self m 2
  unfold truncate_text
  rw [if_neg (by omega)]
  simp only [List.length_append, List.length_take]
  rw [truncMarkerText_length, pyTail_length (by omega) (by omega)]
  have hmin : min (m / 2) t.length = m / 2 := by omega
  rw [hmin]
  omega

theorem budget_arith {lr lj S : Nat} (hS : lr / 4 + lj / 4 = S)
    (hover : 6000 < S) :
    (2 * ((lr * 6000 / S) / 2) + 27) / 4 +
      (2 * ((lj * 6000 / S) / 2) + 27) / 4 ≤ 6014 := by
  have hS0 : 0 < S := by omega
  have hA : lr * 6000 / S + lj * 6000 / S ≤ (lr * 6000 + lj * 6000) / S :=
    div_add_div_le _ _ _ hS0
  have hB : lr + lj ≤ 4 * S + 6 := by omega
  have hC : lr * 6000 + lj * 6000 ≤ 24000 * S + 36000 := by
    calc lr * 6000 + lj * 6000 = (lr + lj) * 6000 := by ring
      _ ≤ (4 * S + 6) * 6000 := Nat.mul_le_mul_right 6000 hB
      _ = 24000 * S + 36000 := by ring
  have hD : (lr * 6000 + lj * 6000) / S ≤ (24000 * S + 36000) / S :=
    Nat.div_le_div_right hC
  have hE : (24000 * S + 36000) / S = 24000 + 36000 / S := by
    have hr : 24000 * S + 36000 = 36000 + S * 24000 := by ring
    rw [hr, Nat.add_mul_div_left _ _ hS0, Nat.add_comm]
  have hF : 36000 / S ≤ 5 := by
    calc 36000 / S ≤ 36000 / 6001 :=
          Nat.div_le_div_left (by omega) (by norm_num)
      _ = 5 := by norm_num
  have hkey : lr * 6000 / S + lj * 6000 / S ≤ 24005 := by
    have h1 := le_trans hA hD
    rw [hE] at h1
    exact le_trans h1 (le_trans (Nat.add_le_add_left hF 24000) (by norm_num))
  generalize lr * 6000 / S = X at hkey ⊢
  generalize lj * 6000 / S = Y at hkey ⊢
  omega

/-! Helper lemmas for the skills-section tagging pass. -/

theorem pyReplaceAux_of_not_contains {pat rep : List Char} :
    ∀ (fuel : Nat) (s : List Char), containsSub pat s = false →
    pyReplaceAux pat rep fuel s = s := by
  intro fuel
  induction fuel with
  | zero => intro s _; cases s <;> rfl
  | succ n ih =>
    intro s h
    cases s with
    | nil => rfl
    | cons c rest =>
      have h' : (leadMatch pat (c :: rest) || containsSub pat rest) = false := h
      simp only [Bool.or_eq_false_iff] at h'
      simp only [pyReplaceAux, h'.1, Bool.and_false, Bool.false_eq_true,
        if_false]
      rw [ih rest h'.2]

theorem pyReplace_of_not_contains {pat rep s : List Char}
    (h : containsSub pat s = false) : pyReplace s pat rep = s :=
  pyReplaceAux_of_not_contains s.length s h

theorem tagMarker_of_clean {text marker : List Char}
    (h1 : containsSub (marker ++ [':']) text = false)
    (h2 : containsSub (pyTitle marker ++ [':']) text = false)
    (h3 : containsSub (pyUpper marker ++ [':']) text = false) :
    tagMarker text marker = text := by
  simp only [tagMarker]
  rw [pyReplace_of_not_contains h1, pyReplace_of_not_contains h2,
    pyReplace_of_not_contains h3]

theorem foldl_tagMarker_clean : ∀ (ms : List (List Char)) (t : List Char),
    (∀ m ∈ ms, containsSub (m ++ [':']) t = false ∧
      containsSub (pyTitle m ++ [':']) t = false ∧
      containsSub (pyUpper m ++ [':']) t = false) →
    ms.foldl tagMarker t = t := by
  intro ms
  induction ms with
  | nil => intro t _; rfl
  | cons m rest ih =>
    intro t h
    have hm := h m (by simp)
    have hrest : ∀ m' ∈ rest, containsSub (m' ++ [':']) t = false ∧
        containsSub (pyTitle m' ++ [':']) t = false ∧
        containsSub (pyUpper m' ++ [':']) t = false :=
      fun m' hm' => h m' (by simp [hm'])
    rw [List.foldl_cons, tagMarker_of_clean hm.1 hm.2.1 hm.2.2, ih t hrest]

/-! Claim theorems. -/

/-- C9: for every pair of input texts whose combined token estimate
(`len(text)//4` each) is at most the 6000-token ceiling, the budgeting
step of `evaluate_match` returns both texts unchanged. -/
theorem c9_budget_identity_under_ceiling (resume job : List Char)
    (h : combined_tokens resume job ≤ max_total_tokens) :
    budget resume job = (resume, job) := by
  unfold budget
  rw [if_neg (by omega)]

/-- Witness for C9 at a concrete under-ceiling input. -/
theorem c9_budget_identity_under_ceiling_witness :
    budget "ab".data "cd".data = ("ab".data, "cd".data) :=
  c9_budget_identity_under_ceiling _ _ (by decide)

/-- C1 (amended): when the combined estimate exceeds the ceiling and each
text's proportional character target is at least 2, the budgeting step
returns, for each text, an intact head segment and an intact tail segment
of the original around the placeholder marker, and the combined token
estimate of the results is at most the ceiling plus 14 tokens — the
overhead of the two inserted 27-character markers plus integer rounding
(the original claim's bound of the ceiling itself does not hold). -/
theorem c1_budget_over_ceiling_amended (resume job : List Char)
    (hover : max_total_tokens < combined_tokens resume job)
    (hr2 : 2 ≤ max_chars_for resume (combined_tokens resume job))
    (hj2 : 2 ≤ max_chars_for job (combined_tokens resume job)) :
    estimate_tokens (budget resume job).1 +
        estimate_tokens (budget resume job).2 ≤ max_total_tokens + 14 ∧
    (budget resume job).1 =
      resume.take (max_chars_for resume (combined_tokens resume job) / 2) ++
        truncMarkerText ++
        resume.drop (resume.length -
          max_chars_for resume (combined_tokens resume job) / 2) ∧
    (budget resume job).2 =
      job.take (max_chars_for job (combined_tokens resume job) / 2) ++
        truncMarkerText ++
        job.drop (job.length -
          max_chars_for job (combined_tokens resume job) / 2) := by
  have h6 : max_total_tokens = 6000 := rfl
  have hS0 : 0 < combined_tokens resume job := by omega
  have hlr : 0 < resume.length := by
    by_contra h0
    have hz : resume.length = 0 := by omega
    have hmz : max_chars_for resume (combined_tokens resume job) = 0 := by
      unfold max_chars_for
      rw [hz]
      simp
    omega
  have hlj : 0 < job.length := by
    by_contra h0
    have hz : job.length = 0 := by omega
    have hmz : max_chars_for job (combined_tokens resume job) = 0 := by
      unfold max_chars_for
      rw [hz]
      simp
    omega
  have hmr_lt : max_chars_for resume (combined_tokens resume job) <
      resume.length := by
    unfold max_chars_for
    rw [Nat.div_lt_iff_lt_mul hS0]
    exact mul_lt_mul_of_pos_left hover hlr
  have hmj_lt : max_chars_for job (combined_tokens resume job) <
      job.length := by
    unfold max_chars_for
    rw [Nat.div_lt_iff_lt_mul hS0]
    exact mul_lt_mul_of_pos_left hover hlj
  have hbud : budget resume job =
      (truncate_text resume (max_chars_for resume (combined_tokens resume job)),
       truncate_text job (max_chars_for job (combined_tokens resume job))) := by
    unfold budget
    rw [if_pos hover]
  simp only [hbud]
  refine ⟨?_, ?_, ?_⟩
  · unfold estimate_tokens
    rw [truncate_length hmr_lt (by omega), truncate_length hmj_lt (by omega)]
    exact budget_arith rfl hover
  · unfold truncate_text pyTail
    rw [if_neg (by omega), if_neg (by omega)]
  · unfold truncate_text pyTail
    rw [if_neg (by omega), if_neg (by omega)]

/-- C1 counterexample: for two 12007-character inputs the combined
estimate of the budgeted texts is 6014, which exceeds the 6000-token
ceiling by more than integer rounding can account for (the inserted
placeholder markers lengthen each truncated text). -/
theorem c1_budget_over_ceiling_cex :
    estimate_tokens
        (budget (List.replicate 12007 'a') (List.replicate 12007 'b')).1 +
      estimate_tokens
        (budget (List.replicate 12007 'a') (List.replicate 12007 'b')).2 =
      6014 ∧
    ¬ (estimate_tokens
        (budget (List.replicate 12007 'a') (List.replicate 12007 'b')).1 +
      estimate_tokens
        (budget (List.replicate 12007 'a') (List.replicate 12007 'b')).2 ≤
      max_total_tokens) := by
  have hR : (List.replicate 12007 'a').length = 12007 :=
    List.length_replicate 12007 'a'
  have hJ : (List.replicate 12007 'b').length = 12007 :=
    List.length_replicate 12007 'b'
  have hcomb : combined_tokens (List.replicate 12007 'a')
      (List.replicate 12007 'b') = 6002 := by
    unfold combined_tokens estimate_tokens
    rw [hR, hJ]
  have hmr : max_chars_for (List.replicate 12007 'a') 6002 = 12002 := by
    unfold max_chars_for max_total_tokens
    rw [hR]
  have hmj : max_chars_for (List.replicate 12007 'b') 6002 = 12002 := by
    unfold max_chars_for max_total_tokens
    rw [hJ]
  have hbud : budget (List.replicate 12007 'a') (List.replicate 12007 'b') =
      (truncate_text (List.replicate 12007 'a') 12002,
       truncate_text (List.replicate 12007 'b') 12002) := by
    unfold budget
    rw [hcomb, hmr, hmj, if_pos (by norm_num [max_total_tokens])]
  simp only [hbud]
  unfold estimate_tokens
  rw [truncate_length (by rw [hR]; norm_num) (by norm_num),
    truncate_length (by rw [hJ]; norm_num) (by norm_num)]
  norm_num [max_total_tokens]

/-- Witness for C1 (amended) at the same concrete over-ceiling input. -/
theorem c1_budget_over_ceiling_amended_witness :
    estimate_tokens
        (budget (List.replicate 12007 'a') (List.replicate 12007 'b')).1 +
      estimate_tokens
        (budget (List.replicate 12007 'a') (List.replicate 12007 'b')).2 ≤
      max_total_tokens + 14 :=
  (c1_budget_over_ceiling_amended (List.replicate 12007 'a')
    (List.replicate 12007 'b')
    (by unfold combined_tokens estimate_tokens max_total_tokens
        rw [List.length_replicate, List.length_replicate]
        norm_num)
    (by unfold max_chars_for combined_tokens estimate_tokens max_total_tokens
        rw [List.length_replicate, List.length_replicate]
        norm_num)
    (by unfold max_chars_for combined_tokens estimate_tokens max_total_tokens
        rw [List.length_replicate, List.length_replicate]
        norm_num)).1

/-- C2 (amended): the tagging pass is the identity — and hence idempotent —
precisely on texts containing no occurrence of any marker variant followed
by ":"; on texts with such occurrences it is not idempotent, because each
application inserts the sentinel tag again in front of the pattern it just
rewrote (and the as-given and uppercased variants of the all-uppercase
markers coincide, so each application even tags such occurrences twice). -/
theorem c2_highlight_identity_on_marker_free (t : List Char)
    (h : ∀ m ∈ skills_section_markers,
      containsSub (m ++ [':']) t = false ∧
      containsSub (pyTitle m ++ [':']) t = false ∧
      containsSub (pyUpper m ++ [':']) t = false) :
    highlight t = t ∧ highlight (highlight t) = highlight t := by
  have h1 : highlight t = t := foldl_tagMarker_clean _ _ h
  exact ⟨h1, by rw [h1, h1]⟩

/-- Witness for C2 (amended) on a marker-free text. -/
theorem c2_highlight_identity_on_marker_free_witness :
    highlight "hello world".data = "hello world".data :=
  (c2_highlight_identity_on_marker_free _ (by decide)).1

/-- C2 counterexample: the tagging pass is not idempotent — applying it
twice to "TOOLS:" inserts further sentinel tags. -/
theorem c2_highlight_not_idempotent_cex :
    highlight (highlight "TOOLS:".data) ≠ highlight "TOOLS:".data := by
  decide

/-- C3 (amended): the resume-site second stage searches the normalized
payload, not the original text, but normalization never changes the widest
`{...}` span, so the span it attempts to parse equals the widest span of
the original response. -/
theorem c3_span_preserved_by_normalization (raw : List Char) :
    spanWidest (normalizeContent raw) = spanWidest raw :=
  spanWidest_normalize raw

/-- C3 counterexample: at the match-verdict site the second stage does
not attempt the widest `{...}` span of the original text; its
`is_match`-anchored pattern selects a narrower, non-nested span.  On this
input the direct strict parse of the normalized payload fails (trailing
garbage after the object), so the second stage is reached. -/
theorem c3_verdict_regex_span_cex :
    verdictRegexSpan "\x7b\"is_match\": true\x7d \x7d".data ≠
      spanWidest "\x7b\"is_match\": true\x7d \x7d".data := by
  decide

/-- C4 (amended): the field-presence repair only ever touches the
explicit-skills field — when it is empty and the keyword scan finds terms,
those terms are merged in; when the scan finds nothing the record is
returned unchanged (the skills stay empty); an empty experience list is
never repaired, and every other field is always unchanged. -/
theorem c4_repair_only_explicit_skills (p : Profile) (resume : List Char) :
    (repairProfile p resume).experience = p.experience ∧
    (repairProfile p resume).inferredSkills = p.inferredSkills ∧
    (repairProfile p resume).education = p.education ∧
    (repairProfile p resume).yearsOfExperience = p.yearsOfExperience ∧
    (repairProfile p resume).projectTypes = p.projectTypes ∧
    (p.explicitSkills ≠ [] → repairProfile p resume = p) ∧
    (p.explicitSkills = [] → extractKeywords resume = [] →
      repairProfile p resume = p) ∧
    (p.explicitSkills = [] → extractKeywords resume ≠ [] →
      (repairProfile p resume).explicitSkills = extractKeywords resume) := by
  unfold repairProfile
  by_cases h1 : p.explicitSkills = []
  · by_cases h2 : extractKeywords resume = []
    · simp [h1, h2]
    · simp [h1, h2]
  · simp [h1]

/-- Witness for C4 (amended): an empty skills field is repaired from the
keyword scan. -/
theorem c4_repair_only_explicit_skills_witness :
    (repairProfile ⟨[], [], [], [], "Unknown".data, []⟩
        "uses Python".data).explicitSkills =
      extractKeywords "uses Python".data ∧
    extractKeywords "uses Python".data = ["Python".data] :=
  ⟨(c4_repair_only_explicit_skills ⟨[], [], [], [], "Unknown".data, []⟩
      "uses Python".data).2.2.2.2.2.2.2 rfl (by decide), by decide⟩

/-- C4 counterexample: a record with an empty experience list and
non-empty skills is returned with its experience still empty — the
fallback experience sentinel is not merged in, contrary to the claim that
fallback content is merged for exactly the empty mandatory fields. -/
theorem c4_experience_not_repaired_cex :
    (⟨["Python".data], [], [], [], "Unknown".data, []⟩ :
      Profile).experience = [] ∧
    (repairProfile ⟨["Python".data], [], [], [], "Unknown".data, []⟩
        "x".data).experience ≠ [expSentinel] := by
  exact ⟨rfl, by decide⟩

/-- C5 (amended): the normalizer trims before checking fences (not after),
and when the text contains a first `{` and a later last `}` it returns
exactly that span of the original response; when no such pair exists it
returns the trimmed, fence-stripped text (not the merely trimmed text). -/
theorem c5_normalize_slices_widest_span (raw : List Char) :
    (∀ t, spanWidest raw = some t → normalizeContent raw = t) ∧
    (spanWidest raw = none →
      normalizeContent raw = pyStrip (stripFences (pyStrip raw))) := by
  constructor
  · intro t ht
    have hu : spanWidest (stripFences (pyStrip raw)) = some t := by
      rw [spanWidest_stripFences, spanWidest_pyStrip]
      exact ht
    obtain ⟨hb, hh, hl, _⟩ := spanWidest_some_facts hu
    unfold normalizeContent
    rw [hb, pyStrip_of_head_last hh hl]
  · intro hn
    have hu : spanWidest (stripFences (pyStrip raw)) = none := by
      rw [spanWidest_stripFences, spanWidest_pyStrip]
      exact hn
    unfold normalizeContent
    rw [braceSlice_of_none hu]

/-- Witness for C5 (amended) on a concrete response with a brace pair. -/
theorem c5_normalize_slices_widest_span_witness :
    normalizeContent "x\x7ba\x7dy".data = "\x7ba\x7d".data :=
  (c5_normalize_slices_widest_span "x\x7ba\x7dy".data).1 _ (by decide)

/-- C5 counterexample: on a response with leading whitespace before the
fence and no brace pair, the code (which trims first and keeps the
fence-stripped text) differs from the claim's normalizer (fence stripping
first, then trimming, returning the trimmed text unchanged). -/
theorem c5_normalize_fence_order_cex :
    normalizeContent " ```json hello".data ≠
      normalizeSpecC5 " ```json hello".data := by
  decide

/-- C6: for every source text, fallback synthesis of the explicit-skills
field returns a non-empty list: every vocabulary term found
case-insensitively in the source, or the single "unable to parse" sentinel
when none is found. -/
theorem c6_fallback_skills_nonempty (src : List Char) :
    fallbackExplicitSkills src ≠ [] ∧
    (∀ k ∈ tech_keywords, containsSub (pyLower k) (pyLower src) = true →
      k ∈ fallbackExplicitSkills src) ∧
    (∀ s ∈ fallbackExplicitSkills src,
      (s ∈ tech_keywords ∧ containsSub (pyLower s) (pyLower src) = true) ∨
      s = skillsSentinel) := by
  by_cases h : extractKeywords src = []
  · refine ⟨?_, ?_, ?_⟩
    · unfold fallbackExplicitSkills
      rw [if_pos h]
      simp
    · intro k hk hocc
      exfalso
      have hmem : k ∈ extractKeywords src := List.mem_filter.mpr ⟨hk, hocc⟩
      rw [h] at hmem
      simp at hmem
    · intro s hs
      right
      unfold fallbackExplicitSkills at hs
      rw [if_pos h] at hs
      simpa using hs
  · refine ⟨?_, ?_, ?_⟩
    · unfold fallbackExplicitSkills
      rw [if_neg h]
      exact h
    · intro k hk hocc
      unfold fallbackExplicitSkills
      rw [if_neg h]
      exact List.mem_filter.mpr ⟨hk, hocc⟩
    · intro s hs
      unfold fallbackExplicitSkills at hs
      rw [if_neg h] at hs
      exact Or.inl ⟨(List.mem_filter.mp hs).1, (List.mem_filter.mp hs).2⟩

/-- Witness for C6 on a source mentioning one vocabulary term. -/
theorem c6_fallback_skills_nonempty_witness :
    "Python".data ∈ fallbackExplicitSkills "I know Python".data :=
  (c6_fallback_skills_nonempty "I know Python".data).2.1 "Python".data
    (by decide) (by decide)

/-- C7: when all structured-parsing stages fail, the synthesized verdict
depends only on the positive-sentiment phrase test: match percentage is
exactly 75 when positive-leaning text is found and exactly 30 otherwise,
`is_match` mirrors the same test, and the reason states that structured
parsing failed and which keyword heuristic decided the verdict. -/
theorem c7_fallback_verdict_keyword_only (content : List Char) :
    fallbackVerdict content =
      if posKeywords content then
        { is_match := true, match_percentage := some 75,
          matching_skills := some [], missing_skills := some [],
          reason := "Could not parse structured response. Based on keywords, this appears to be a match.".data }
      else
        { is_match := false, match_percentage := some 30,
          matching_skills := some [], missing_skills := some [],
          reason := "Could not parse structured response. Based on keywords, this does not appear to be a match.".data } := by
  cases h : posKeywords content
  · simp only [fallbackVerdict, h]
    decide
  · simp only [fallbackVerdict, h]
    decide

/-- C8: when the external generator call raises, `evaluate_match` returns
a verdict record with `is_match` false and a reason describing the error;
the handler is total, so the exception is never propagated. -/
theorem c8_generator_error_handled (processOk : List Char → Verdict)
    (e : List Char) :
    handleMatchCall processOk (Except.error e) = errorVerdict e ∧
    (handleMatchCall processOk (Except.error e)).is_match = false ∧
    (handleMatchCall processOk (Except.error e)).reason =
      "Error evaluating match: ".data ++ e :=
  ⟨rfl, rfl, rfl⟩

/-- C10: the keyword-based fallback verdict always carries empty
matching-skills and missing-skills lists. -/
theorem c10_fallback_verdict_empty_skill_lists (content : List Char) :
    (fallbackVerdict content).matching_skills = some [] ∧
    (fallbackVerdict content).missing_skills = some [] :=
  ⟨rfl, rfl⟩
